import Mathlib

/-!
Verification of the Quax integral engine specification against a shallow
embedding of the repository sources.  Python floating point arithmetic is
modelled by the real numbers; numpy arrays become functions from indices to
values; in-place scatter-add loops become folds over the iteration lists of
the corresponding Python loops.
-/

namespace Quax

/-- Dot product of two 3-vectors, the model of np.dot / torch.dot on
length-3 arrays. -/
noncomputable def dot3 (v w : Fin 3 → ℝ) : ℝ := ∑ m : Fin 3, v m * w m

lemma dot3_sub_comm (v w : Fin 3 → ℝ) : dot3 (v - w) (v - w) = dot3 (w - v) (w - v) := by
  unfold dot3
  refine Finset.sum_congr rfl fun m _ => by simp only [Pi.sub_apply]; ring

namespace OEI

/-!
Embedding of src/PsiJax/psijax/psijax/integrals/oei.py.  Angular momenta are
Python integers, modelled by ℤ; Python floor division // is Int.fdiv.
-/

/-- Modelled from the spec: integrals_utils.binomial_prefactor is imported by
oei.py but integrals_utils is not among the sources.  Per spec section 4.2 it
is the Taketa-Hunzinaga-Oohata expansion coefficient: the sum over t with
0 ≤ t ≤ l1 and 0 ≤ i - t ≤ l2 of C(l1,t) C(l2,i-t) x^(l1-t) y^(l2-(i-t)). -/
noncomputable def binomial_prefactor (i l1 l2 : ℤ) (x y : ℝ) : ℝ :=
  ∑ t ∈ (Finset.Icc 0 i).filter (fun t => t ≤ l1 ∧ i - t ≤ l2),
    (Nat.choose l1.toNat t.toNat : ℝ) * (Nat.choose l2.toNat (i - t).toNat : ℝ) *
      x ^ (l1 - t).toNat * y ^ (l2 - (i - t)).toNat

/-- Modelled from the spec: the precomputed double factorial table of
integrals_utils (not among the sources), with the classic convention that the
double factorial of -1 is 1. -/
noncomputable def dfac (n : ℤ) : ℝ := if n < 0 then 1 else (Nat.doubleFactorial n.toNat : ℝ)

/-- One dimensional overlap component, oei.py lines 34-47: a while loop
summing i = 0,…,K-1 with K = 1 + (l1+l2)//2. -/
noncomputable def overlap_component (l1 l2 : ℤ) (PAx PBx gamma : ℝ) : ℝ :=
  ∑ i ∈ Finset.range (1 + (l1 + l2).fdiv 2).toNat,
    binomial_prefactor (2 * i) l1 l2 PAx PBx * dfac (2 * i - 1) / (2 * gamma) ^ i

/-- Single overlap integral, oei.py lines 11-32. -/
noncomputable def overlap (aa : ℝ) (La : ℤ × ℤ × ℤ) (bb : ℝ) (Lb : ℤ × ℤ × ℤ)
    (PA PB : Fin 3 → ℝ) (prefactor : ℝ) : ℝ :=
  (prefactor * (Real.pi / (aa + bb)) ^ (1.5 : ℝ)) *
    (overlap_component La.1 Lb.1 (PA 0) (PB 0) (aa + bb) *
      overlap_component La.2.1 Lb.2.1 (PA 1) (PB 1) (aa + bb) *
      overlap_component La.2.2 Lb.2.2 (PA 2) (PB 2) (aa + bb))

/-- Single kinetic energy integral, oei.py lines 49-70. -/
noncomputable def kinetic (aa : ℝ) (La : ℤ × ℤ × ℤ) (bb : ℝ) (Lb : ℤ × ℤ × ℤ)
    (PA PB : Fin 3 → ℝ) (prefactor : ℝ) : ℝ :=
  let la := La.1; let ma := La.2.1; let na := La.2.2
  let lb := Lb.1; let mb := Lb.2.1; let nb := Lb.2.2
  (bb * (2 * ((lb : ℝ) + mb + nb) + 3)) * overlap aa La bb Lb PA PB prefactor
  - 2 * bb ^ 2 *
      (overlap aa (la, ma, na) bb (lb + 2, mb, nb) PA PB prefactor
        + overlap aa (la, ma, na) bb (lb, mb + 2, nb) PA PB prefactor
        + overlap aa (la, ma, na) bb (lb, mb, nb + 2) PA PB prefactor)
  - (1 / 2) *
      (((lb : ℝ) * ((lb : ℝ) - 1)) * overlap aa (la, ma, na) bb (lb - 2, mb, nb) PA PB prefactor
        + ((mb : ℝ) * ((mb : ℝ) - 1)) * overlap aa (la, ma, na) bb (lb, mb - 2, nb) PA PB prefactor
        + ((nb : ℝ) * ((nb : ℝ) - 1)) * overlap aa (la, ma, na) bb (lb, mb, nb - 2) PA PB prefactor)

/-- Single A_term, oei.py lines 72-77.  The loop counters i, r, u are
non-negative at every call site (see the A_array loop bounds), so they are
taken in ℕ; subtraction i - 2r - 2u never truncates on the iterated triples. -/
noncomputable def A_term (i r u : ℕ) (l1 l2 : ℤ) (PAx PBx CPx gamma : ℝ) : ℝ :=
  (-1 : ℝ) ^ i * binomial_prefactor i l1 l2 PAx PBx * (-1 : ℝ) ^ u *
    (Nat.factorial i : ℝ) * CPx ^ (i - 2 * r - 2 * u) * ((0.25 : ℝ) / gamma) ^ (r + u) /
    (Nat.factorial r : ℝ) / (Nat.factorial u : ℝ) / (Nat.factorial (i - 2 * r - 2 * u) : ℝ)

/-- Iteration list of a Python style downward while loop: k, k-1, …, 0 when
0 ≤ k and empty when k < 0 (the loops in A_array run while the counter
exceeds -1). -/
def downRangeZ (k : ℤ) : List ℤ := ((List.range (k + 1).toNat).reverse.map (Int.ofNat ·))

/-- Exact iteration order of the triple while loop of A_array,
oei.py lines 88-99: i from l1+l2 down to 0, r from i//2 down to 0,
u from (i-2r)//2 down to 0. -/
def A_array_triples (l1 l2 : ℤ) : List (ℤ × ℤ × ℤ) :=
  (downRangeZ (l1 + l2)).flatMap fun i =>
    (downRangeZ (i.fdiv 2)).flatMap fun r =>
      (downRangeZ ((i - 2 * r).fdiv 2)).map fun u => (i, r, u)

/-- Hermite style expansion array, oei.py lines 80-100.  The jax array
s.A has length 7 and jax.ops.index_add silently drops updates whose index
lies outside the array, which the guard I < 7 models; reads outside the
array are never performed for supported angular momenta. -/
noncomputable def A_array (l1 l2 : ℤ) (PA PB CP g : ℝ) : ℕ → ℝ :=
  (A_array_triples l1 l2).foldl
    (fun A t => fun I =>
      if (I : ℤ) = t.1 - 2 * t.2.1 - t.2.2 ∧ I < 7 then
        A I + A_term t.1.toNat t.2.1.toNat t.2.2.toNat l1 l2 PA PB CP g
      else A I)
    (fun _ => 0)

/-- Modelled from the spec: integrals_utils.boys is imported by oei.py but
integrals_utils is not among the sources.  Spec section 4.1 states its
contract F_n(x) = ∫ t in 0..1, t^(2n) exp(-x t^2). -/
noncomputable def boys (n : ℕ) (x : ℝ) : ℝ :=
  ∫ t in (0 : ℝ)..1, t ^ (2 * n) * Real.exp (-x * t ^ 2)

/-- Single electron-nuclear attraction integral, oei.py lines 102-140. -/
noncomputable def potential (aa : ℝ) (La : ℤ × ℤ × ℤ) (bb : ℝ) (Lb : ℤ × ℤ × ℤ)
    (PA PB P : Fin 3 → ℝ) (prefactor : ℝ)
    (geom : ℕ → Fin 3 → ℝ) (natoms : ℕ) (charges : ℕ → ℝ) : ℝ :=
  let la := La.1; let ma := La.2.1; let na := La.2.2
  let lb := Lb.1; let mb := Lb.2.1; let nb := Lb.2.2
  let gamma := aa + bb
  let pre := prefactor * (-2 * Real.pi / gamma)
  ∑ i ∈ Finset.range natoms,
    charges i * pre *
      (let C := geom i
       let Ax := A_array la lb (PA 0) (PB 0) (P 0 - C 0) gamma
       let Ay := A_array ma mb (PA 1) (PB 1) (P 1 - C 1) gamma
       let Az := A_array na nb (PA 2) (PB 2) (P 2 - C 2) gamma
       ∑ I ∈ Finset.range (la + lb + 1).toNat,
         ∑ J ∈ Finset.range (ma + mb + 1).toNat,
           ∑ K ∈ Finset.range (na + nb + 1).toNat,
             Ax I * Ay J * Az K * boys (I + J + K) (gamma * dot3 (C - P) (C - P)))

/-- Modelled from the spec: am_leading_indices of integrals_utils (not among
the sources), the offset of each total angular momentum block inside
angular_momentum_combinations. -/
def am_leading_indices : ℕ → ℕ := fun am => [0, 1, 4, 10].getD am 0

/-- Modelled from the spec: angular_momentum_combinations of integrals_utils
(not among the sources), the canonically ordered Cartesian component triples
for total angular momentum 0 through 3, lexicographically descending. -/
def angular_momentum_combinations : ℕ → ℤ × ℤ × ℤ := fun idx =>
  [((0:ℤ),(0:ℤ),(0:ℤ)),
   (1,0,0),(0,1,0),(0,0,1),
   (2,0,0),(1,1,0),(1,0,1),(0,2,0),(0,1,1),(0,0,2),
   (3,0,0),(2,1,0),(2,0,1),(1,2,0),(1,1,1),(1,0,2),(0,3,0),(0,2,1),(0,1,2),(0,0,3)].getD idx (0,0,0)

/-- Modelled from the spec: the flattened per-primitive arrays returned by
basis_utils.flatten_basis_data (basis_utils is not among the sources); spec
section 6 lists exactly these per-primitive arrays. -/
structure BasisData where
  nprim : ℕ
  coeffs : ℕ → ℝ
  exps : ℕ → ℝ
  atoms : ℕ → ℕ
  ams : ℕ → ℕ
  indices : ℕ → ℕ
  dims : ℕ → ℕ

/-- Row ordering of cartesian_product(arange nprim, arange nprim),
oei.py line 152: all ordered duets, row major. -/
def duets (n : ℕ) : List (ℕ × ℕ) :=
  (List.range n).flatMap fun p1 => (List.range n).map fun p2 => (p1, p2)

/-- Per-duet per-component contribution of the assembler loop body,
oei.py lines 161-200: the target entry (i, j) together with the three
weighted integral values added into S, T and V there. -/
noncomputable def oeiEntry (geom : ℕ → Fin 3 → ℝ) (natoms : ℕ) (charges : ℕ → ℝ)
    (B : BasisData) (p1 p2 a b : ℕ) : (ℕ × ℕ) × (ℝ × ℝ × ℝ) :=
  let coef := B.coeffs p1 * B.coeffs p2
  let aa := B.exps p1
  let bb := B.exps p2
  let A := geom (B.atoms p1)
  let Bc := geom (B.atoms p2)
  let gamma := aa + bb
  let prefactor := Real.exp (-aa * bb * dot3 (A - Bc) (A - Bc) / gamma)
  let P : Fin 3 → ℝ := fun m => (aa * A m + bb * Bc m) / gamma
  let PA : Fin 3 → ℝ := fun m => P m - A m
  let PB : Fin 3 → ℝ := fun m => P m - Bc m
  let La := angular_momentum_combinations (a + am_leading_indices (B.ams p1))
  let Lb := angular_momentum_combinations (b + am_leading_indices (B.ams p2))
  ((B.indices p1 + a, B.indices p2 + b),
    (OEI.overlap aa La bb Lb PA PB prefactor * coef,
      OEI.kinetic aa La bb Lb PA PB prefactor * coef,
      OEI.potential aa La bb Lb PA PB P prefactor geom natoms charges * coef))

/-- Flattened iteration list of the assembler loops of oei_arrays: duets in
cartesian_product order, then a over dims p1, then b over dims p2. -/
noncomputable def oeiContribs (geom : ℕ → Fin 3 → ℝ) (natoms : ℕ) (charges : ℕ → ℝ)
    (B : BasisData) : List ((ℕ × ℕ) × (ℝ × ℝ × ℝ)) :=
  (duets B.nprim).flatMap fun p =>
    (List.range (B.dims p.1)).flatMap fun a =>
      (List.range (B.dims p.2)).map fun b =>
        oeiEntry geom natoms charges B p.1 p.2 a b

/-- Accumulation of a list of scatter-add updates into a matrix, the model of
repeated jax.ops.index_add starting from np.zeros. -/
noncomputable def assemble (L : List ((ℕ × ℕ) × ℝ)) : (ℕ × ℕ) → ℝ :=
  L.foldl (fun m c => fun q => if q = c.1 then m q + c.2 else m q) (fun _ => 0)

/-- One electron integral arrays, oei.py lines 142-203.  The three output
matrices accumulate, in loop order, the contributions of every ordered
primitive duet and every intra-shell component pair. -/
noncomputable def oei_arrays (geom : ℕ → Fin 3 → ℝ) (natoms : ℕ) (charges : ℕ → ℝ)
    (B : BasisData) : ((ℕ × ℕ) → ℝ) × ((ℕ × ℕ) → ℝ) × ((ℕ × ℕ) → ℝ) :=
  (assemble ((oeiContribs geom natoms charges B).map fun c => (c.1, c.2.1)),
   assemble ((oeiContribs geom natoms charges B).map fun c => (c.1, c.2.2.1)),
   assemble ((oeiContribs geom natoms charges B).map fun c => (c.1, c.2.2.2)))

end OEI

/-- Gauss error function, the model of torch.erf and jax.scipy.special.erf
(external library functions): erf x = 2/sqrt(pi) ∫ t in 0..x, exp(-t^2). -/
noncomputable def erf (x : ℝ) : ℝ :=
  2 / Real.sqrt Real.pi * ∫ t in (0 : ℝ)..x, Real.exp (-t ^ 2)

namespace Torch

/-!
Embedding of src/old_stuff/testbed/checkpointing/hf_grad_chkpt/
2_geom_integrals_E/integrals.py (the naive reference kernels).
-/

/-- Normalization constant for s primitives, integrals.py lines 143-147. -/
noncomputable def normalize (aa : ℝ) : ℝ := (2 * aa / Real.pi) ^ ((3 : ℝ) / 4)

/-- Boys function with the exact F0 error function relation,
integrals.py lines 149-157. -/
noncomputable def torchboys (nu arg : ℝ) : ℝ :=
  if arg < 1e-8 then 1 / (2 * nu + 1) - arg / (2 * nu + 3)
  else erf (Real.sqrt arg) * Real.sqrt Real.pi / (2 * Real.sqrt arg)

/-- Naive single-quartet two electron repulsion integral,
integrals.py lines 203-219. -/
noncomputable def eri (aa bb cc dd : ℝ) (A B C D : Fin 3 → ℝ) : ℝ :=
  let g1 := aa + bb
  let g2 := cc + dd
  let Rp : Fin 3 → ℝ := fun m => (aa * A m + bb * B m) / (aa + bb)
  let c1 := Real.exp (dot3 (A - B) (A - B) * (-aa * bb / (aa + bb)))
  let Rq : Fin 3 → ℝ := fun m => (cc * C m + dd * D m) / (cc + dd)
  let c2 := Real.exp (dot3 (C - D) (C - D) * (-cc * dd / (cc + dd)))
  let Na := normalize aa
  let Nb := normalize bb
  let Nc := normalize cc
  let Nd := normalize dd
  let delta := 1 / (4 * g1) + 1 / (4 * g2)
  let arg := dot3 (Rp - Rq) (Rp - Rq) / (4 * delta)
  let F := torchboys 0 arg
  F * Na * Nb * Nc * Nd * c1 * c2 * 2 * Real.pi ^ 2 / (g1 * g2) *
    Real.sqrt (Real.pi / (g1 + g2))

end Torch

namespace Fast

/-!
Embedding of src/psijax/fast_integrals.py (the vectorized s-orbital fast
path), elementwise: an array of shape (nbf,…) becomes a function of its
indices, and every einsum / broadcast / transpose has been resolved to the
value of the resulting array at a general index tuple.
-/

/-- Centers assigned to basis functions, fast_integrals.py lines 13 and 57:
np.repeat(geom, 20, axis=0) replicates each atomic center a hard coded 20
times, so basis function i is assigned the center of atom i / 20. -/
def centers (geom : ℕ → Fin 3 → ℝ) (i : ℕ) : Fin 3 → ℝ := geom (i / 20)

/-- Normalization vector, fast_integrals.py lines 14 and 59. -/
noncomputable def norm (basis : ℕ → ℝ) (i : ℕ) : ℝ :=
  (2 * basis i / Real.pi) ^ ((3 : ℝ) / 4)

/-- Squared distance array AmBAmB of oei_setup, fast_integrals.py
lines 67-69; entry (i, j) is the squared distance of centers j and i. -/
noncomputable def AmBAmB (geom : ℕ → Fin 3 → ℝ) (i j : ℕ) : ℝ :=
  dot3 (centers geom j - centers geom i) (centers geom j - centers geom i)

/-- Entry (i, j) of the overlap matrix S of oei_setup,
fast_integrals.py lines 59-71. -/
noncomputable def oeiS (geom : ℕ → Fin 3 → ℝ) (basis : ℕ → ℝ) (i j : ℕ) : ℝ :=
  norm basis i * norm basis j *
    Real.exp (AmBAmB geom i j * (-(basis i * basis j) / (basis j + basis i))) *
    (Real.pi / (basis j + basis i)) ^ ((3 : ℝ) / 2)

/-- Entry (i, j) of the kinetic matrix T of oei_setup,
fast_integrals.py lines 73-74. -/
noncomputable def oeiT (geom : ℕ → Fin 3 → ℝ) (basis : ℕ → ℝ) (i j : ℕ) : ℝ :=
  oeiS geom basis i j *
    (3 * (basis i * basis j / (basis j + basis i)) +
      2 * (basis i * basis j / (basis j + basis i)) *
        (basis i * basis j / (basis j + basis i)) * -AmBAmB geom i j)

/-- Entry (i, j) of the potential prefactor array Vtmp of oei_setup,
fast_integrals.py line 89. -/
noncomputable def oeiVtmp (geom : ℕ → Fin 3 → ℝ) (basis : ℕ → ℝ) (i j : ℕ) : ℝ :=
  norm basis i * norm basis j *
    Real.exp (AmBAmB geom i j * (-(basis i * basis j) / (basis j + basis i))) *
    2 * Real.pi / (basis j + basis i)

/-- Entry (atom, i, j) of the Boys argument array of oei_setup,
fast_integrals.py lines 77-88. -/
noncomputable def oeiBoysArg (geom : ℕ → Fin 3 → ℝ) (basis : ℕ → ℝ)
    (atom i j : ℕ) : ℝ :=
  dot3
    (fun m => (basis i * centers geom i m + basis j * centers geom j m) *
        (1 / (basis j + basis i)) - geom atom m)
    (fun m => (basis i * centers geom i m + basis j * centers geom j m) *
        (1 / (basis j + basis i)) - geom atom m) *
    (basis j + basis i)

/-- Outputs of oei_setup, fast_integrals.py lines 51-90.  The arguments
nbf_per_atom and charge_per_atom are accepted exactly as in the source,
which never reads them inside this function. -/
noncomputable def oei_setup (geom : ℕ → Fin 3 → ℝ) (basis : ℕ → ℝ)
    (nbf_per_atom : ℕ) (charge_per_atom : ℕ → ℝ) :
    (ℕ → ℕ → ℝ) × (ℕ → ℕ → ℝ) × (ℕ → ℕ → ℝ) × (ℕ → ℕ → ℕ → ℝ) :=
  (oeiS geom basis, oeiT geom basis, oeiVtmp geom basis, oeiBoysArg geom basis)

/-- Branch-masked F0 Boys evaluation shared by oei_finish and tei_finish,
fast_integrals.py lines 44-48 and 93-97. -/
noncomputable def finishF (x : ℝ) : ℝ :=
  if x ≤ 1e-8 then 1 - x / 3
  else erf (Real.sqrt x) * Real.sqrt Real.pi / (2 * Real.sqrt x)

/-- Potential matrix assembly oei_finish, fast_integrals.py lines 92-101. -/
noncomputable def oei_finish (Vtmp : ℕ → ℕ → ℝ) (boys_arg : ℕ → ℕ → ℕ → ℝ)
    (natoms : ℕ) (charge_per_atom : ℕ → ℝ) (i j : ℕ) : ℝ :=
  Vtmp i j * ∑ a ∈ Finset.range natoms, -charge_per_atom a * finishF (boys_arg a i j)

/-- Entry (i, j, k, l) of the Gaussian product coefficient array c1 of
tei_setup, fast_integrals.py lines 24-29. -/
noncomputable def teiC1 (geom : ℕ → Fin 3 → ℝ) (basis : ℕ → ℝ) (i j : ℕ) : ℝ :=
  Real.exp (dot3 (centers geom j - centers geom i) (centers geom j - centers geom i) *
    (-(basis j * basis i)) / (basis j + basis i))

/-- Entry (i, j, k, l, m) of the Gaussian product center array Rp of
tei_setup, fast_integrals.py lines 33-37. -/
noncomputable def teiRp (geom : ℕ → Fin 3 → ℝ) (basis : ℕ → ℝ) (i j : ℕ)
    (m : Fin 3) : ℝ :=
  (basis j * centers geom j m + basis i * centers geom i m) * (1 / (basis j + basis i))

/-- Entry (i, j, k, l) of the Boys argument array of tei_setup,
fast_integrals.py lines 38-39. -/
noncomputable def teiBoysArg (geom : ℕ → Fin 3 → ℝ) (basis : ℕ → ℝ)
    (i j k l : ℕ) : ℝ :=
  dot3 (teiRp geom basis i j - teiRp geom basis k l)
      (teiRp geom basis i j - teiRp geom basis k l) /
    (4 * (1 / (4 * (basis j + basis i)) + 1 / (4 * (basis l + basis k))))

/-- Entry (i, j, k, l) of the prefactor array G of tei_setup,
fast_integrals.py line 40. -/
noncomputable def teiG (geom : ℕ → Fin 3 → ℝ) (basis : ℕ → ℝ) (i j k l : ℕ) : ℝ :=
  teiC1 geom basis i j * teiC1 geom basis k l *
    (norm basis i * norm basis j * norm basis k * norm basis l) *
    2 * Real.pi ^ 2 / ((basis j + basis i) * (basis l + basis k)) *
    Real.sqrt (Real.pi / ((basis j + basis i) + (basis l + basis k)))

/-- Outputs of tei_setup, fast_integrals.py lines 7-41.  The argument
nbf_per_atom is accepted exactly as in the source, which never reads it. -/
noncomputable def tei_setup (geom : ℕ → Fin 3 → ℝ) (basis : ℕ → ℝ)
    (nbf_per_atom : ℕ) :
    (ℕ → ℕ → ℕ → ℕ → ℝ) × (ℕ → ℕ → ℕ → ℕ → ℝ) :=
  (teiG geom basis, teiBoysArg geom basis)

/-- Two electron tensor assembly tei_finish, fast_integrals.py lines 43-49. -/
noncomputable def tei_finish (Gtmp boys_arg : ℕ → ℕ → ℕ → ℕ → ℝ) (i j k l : ℕ) : ℝ :=
  finishF (boys_arg i j k l) * Gtmp i j k l

/-- Composition of the vectorized two electron fast path: tei_setup followed
by tei_finish, fast_integrals.py lines 158-159. -/
noncomputable def teiPath (geom : ℕ → Fin 3 → ℝ) (basis : ℕ → ℝ)
    (nbf_per_atom : ℕ) (i j k l : ℕ) : ℝ :=
  tei_finish (tei_setup geom basis nbf_per_atom).1 (tei_setup geom basis nbf_per_atom).2 i j k l

end Fast

/-! ## Loop bound lemmas for A_array -/

lemma mem_downRangeZ {k t : ℤ} : t ∈ OEI.downRangeZ k ↔ 0 ≤ t ∧ t ≤ k := by
  unfold OEI.downRangeZ
  simp only [List.mem_map, List.mem_reverse, List.mem_range, Int.ofNat_eq_coe]
  constructor
  · rintro ⟨m, hm, rfl⟩
    omega
  · rintro ⟨h0, hk⟩
    exact ⟨t.toNat, by omega, by omega⟩

lemma mem_A_array_triples {l1 l2 i r u : ℤ} :
    (i, r, u) ∈ OEI.A_array_triples l1 l2 ↔
      0 ≤ i ∧ i ≤ l1 + l2 ∧ 0 ≤ r ∧ r ≤ i.fdiv 2 ∧ 0 ≤ u ∧ u ≤ (i - 2 * r).fdiv 2 := by
  unfold OEI.A_array_triples
  simp only [List.mem_flatMap, List.mem_map, mem_downRangeZ]
  constructor
  · rintro ⟨i0, hi0, r0, hr0, u0, hu0, heq⟩
    obtain ⟨rfl, rfl, rfl⟩ := Prod.mk.injEq .. ▸ heq
    · exact ⟨hi0.1, hi0.2, hr0.1, hr0.2, hu0.1, hu0.2⟩
  · rintro ⟨h1, h2, h3, h4, h5, h6⟩
    exact ⟨i, ⟨h1, h2⟩, r, ⟨h3, h4⟩, u, ⟨h5, h6⟩, rfl⟩

/-- Scatter-adds of A_array never touch entries beyond index 6: the guard
modelling the silent drop of out-of-range jax index_add updates leaves them
at their zero initialisation. -/
lemma A_array_oob (l1 l2 : ℤ) (pa pb cp g : ℝ) {I : ℕ} (hI : 7 ≤ I) :
    OEI.A_array l1 l2 pa pb cp g I = 0 := by
  unfold OEI.A_array
  generalize OEI.A_array_triples l1 l2 = L
  suffices h : ∀ (A : ℕ → ℝ), A I = 0 →
      (L.foldl (fun A t => fun (J : ℕ) =>
        if (J : ℤ) = t.1 - 2 * t.2.1 - t.2.2 ∧ J < 7 then
          A J + OEI.A_term t.1.toNat t.2.1.toNat t.2.2.toNat l1 l2 pa pb cp g
        else A J) A) I = 0 by
    exact h _ rfl
  induction L with
  | nil => intro A hA; exact hA
  | cons t L ih =>
    intro A hA
    refine ih _ ?_
    simp only
    rw [if_neg]
    · exact hA
    · rintro ⟨-, h7⟩
      omega

/-- C5: every triple (i, r, u) iterated by the A_array loops satisfies the
non-negativity derived bounds 0 ≤ i ≤ l1+l2, 0 ≤ r ≤ ⌊i/2⌋ and
0 ≤ u ≤ ⌊(i-2r)/2⌋, hence the A_term factorial arguments and the exponent
i-2r-2u are non-negative and the accumulation index i-2r-u lies inside
0..l1+l2, within the length-7 output array when l1+l2 ≤ 6. -/
theorem A_array_loop_bounds (l1 l2 : ℤ) (hl1 : 0 ≤ l1) (hl2 : 0 ≤ l2)
    (hsum : l1 + l2 ≤ 6) :
    ∀ t ∈ OEI.A_array_triples l1 l2,
      0 ≤ t.1 ∧ t.1 ≤ l1 + l2 ∧
      0 ≤ t.2.1 ∧ t.2.1 ≤ t.1.fdiv 2 ∧
      0 ≤ t.2.2 ∧ t.2.2 ≤ (t.1 - 2 * t.2.1).fdiv 2 ∧
      0 ≤ t.1 - 2 * t.2.1 - 2 * t.2.2 ∧
      0 ≤ t.1 - 2 * t.2.1 - t.2.2 ∧
      t.1 - 2 * t.2.1 - t.2.2 ≤ l1 + l2 ∧
      t.1 - 2 * t.2.1 - t.2.2 < 7 := by
  rintro ⟨i, r, u⟩ ht
  rw [mem_A_array_triples] at ht
  obtain ⟨h1, h2, h3, h4, h5, h6⟩ := ht
  dsimp only
  rw [Int.fdiv_eq_ediv _ (by norm_num)] at h4 h6 ⊢
  rw [Int.fdiv_eq_ediv _ (by norm_num)]
  omega

theorem A_array_loop_bounds_witness :
    ((0:ℤ) ≤ 3 ∧ (0:ℤ) ≤ 3 ∧ (3:ℤ) + 3 ≤ 6) ∧
    (((6:ℤ), (3:ℤ), (0:ℤ)) ∈ OEI.A_array_triples 3 3 →
      (0 ≤ (6:ℤ) ∧ (6:ℤ) ≤ 3 + 3 ∧
        0 ≤ (3:ℤ) ∧ (3:ℤ) ≤ (6:ℤ).fdiv 2 ∧
        0 ≤ (0:ℤ) ∧ (0:ℤ) ≤ ((6:ℤ) - 2 * 3).fdiv 2 ∧
        0 ≤ (6:ℤ) - 2 * 3 - 2 * 0 ∧
        0 ≤ (6:ℤ) - 2 * 3 - 0 ∧
        (6:ℤ) - 2 * 3 - 0 ≤ 3 + 3 ∧
        (6:ℤ) - 2 * 3 - 0 < 7)) :=
  ⟨⟨by norm_num, by norm_num, by norm_num⟩,
    fun h => A_array_loop_bounds 3 3 (by norm_num) (by norm_num) (by norm_num) (6, 3, 0) h⟩

/-- C7 counterexample: for an axis momentum pair of a shell beyond the
supported maximum (l1 = l2 = 4, as arises for g shells) the A_array loops do
run — no error path exists — and iterate the triple (8, 0, 0), whose
accumulation index 8 lies outside the length-7 array, where the returned
array still holds the untouched zero: the engine silently drops the
contribution instead of failing fast. -/
theorem A_array_no_fail_fast_counterexample :
    ((8:ℤ), (0:ℤ), (0:ℤ)) ∈ OEI.A_array_triples 4 4 ∧
      ¬ ((8:ℤ) - 2 * 0 - 0 < 7) ∧
      OEI.A_array 4 4 1 1 1 1 8 = 0 :=
  ⟨by decide, by decide, A_array_oob 4 4 1 1 1 1 (by norm_num)⟩

/-- C7 (amended): the integral engine performs no angular momentum
validation and never fails fast; for every axis pair with l1 + l2 > 6 the
A_array loops iterate the triple (l1+l2, 0, 0) whose accumulation index
exceeds 6, the scatter-add silently drops every such out-of-range
contribution (the array entries beyond index 6 stay 0), and numeric values
are still produced. -/
theorem A_array_no_validation (l1 l2 : ℤ) (hl1 : 0 ≤ l1) (hl2 : 0 ≤ l2)
    (h : 6 < l1 + l2) (pa pb cp g : ℝ) :
    (l1 + l2, (0:ℤ), (0:ℤ)) ∈ OEI.A_array_triples l1 l2 ∧
      ¬ (l1 + l2 - 2 * 0 - 0 < 7) ∧
      ∀ I : ℕ, 7 ≤ I → OEI.A_array l1 l2 pa pb cp g I = 0 := by
  refine ⟨?_, by omega, fun I hI => A_array_oob l1 l2 pa pb cp g hI⟩
  rw [mem_A_array_triples]
  rw [Int.fdiv_eq_ediv _ (by norm_num), Int.fdiv_eq_ediv _ (by norm_num)]
  omega

theorem A_array_no_validation_witness :
    (((0:ℤ) ≤ 4 ∧ (0:ℤ) ≤ 4 ∧ (6:ℤ) < 4 + 4) ∧
      ((4:ℤ) + 4, (0:ℤ), (0:ℤ)) ∈ OEI.A_array_triples 4 4) ∧
      OEI.A_array 4 4 2 3 5 7 9 = 0 :=
  ⟨⟨⟨by norm_num, by norm_num, by norm_num⟩,
      (A_array_no_validation 4 4 (by norm_num) (by norm_num) (by norm_num) 2 3 5 7).1⟩,
    (A_array_no_validation 4 4 (by norm_num) (by norm_num) (by norm_num) 2 3 5 7).2.2 9 (by norm_num)⟩

/-- C6: for every order n in [0, 10] the torch Boys function at argument 0
takes the small-argument series branch (the condition 0 < 1e-8 holds, so the
branch dividing by the square root of the argument is not selected) and its
value is exactly 1/(2n+1). -/
theorem torchboys_at_zero (n : ℕ) (hn : n ≤ 10) :
    (0:ℝ) < 1e-8 ∧ Torch.torchboys (n : ℝ) 0 = 1 / (2 * (n : ℝ) + 1) := by
  refine ⟨by norm_num, ?_⟩
  unfold Torch.torchboys
  rw [if_pos (by norm_num)]
  norm_num

theorem torchboys_at_zero_witness :
    (5:ℕ) ≤ 10 ∧ ((0:ℝ) < 1e-8 ∧ Torch.torchboys ((5:ℕ) : ℝ) 0 = 1 / (2 * ((5:ℕ) : ℝ) + 1)) :=
  ⟨by norm_num, torchboys_at_zero 5 (by norm_num)⟩

/-- Vanishing of the binomial prefactor beyond the total angular momentum:
for i > l1 + l2 no expansion index t satisfies both constraints. -/
lemma binomial_prefactor_eq_zero {i l1 l2 : ℤ} (h : l1 + l2 < i) (x y : ℝ) :
    OEI.binomial_prefactor i l1 l2 x y = 0 := by
  unfold OEI.binomial_prefactor
  rw [Finset.filter_false_of_mem, Finset.sum_empty]
  intro t ht
  rw [Finset.mem_Icc] at ht
  rintro ⟨h1, h2⟩
  omega

/-- C2: the one dimensional overlap component is the finite sum of
⌈(l1+l2)/2⌉ + 1 terms, term i being the binomial prefactor at index 2i
weighted by the double factorial of 2i-1 and divided by (2 gamma)^i (for odd
l1+l2 the final term carries a vanishing binomial prefactor, so the while
loop of the source, which runs ⌊(l1+l2)/2⌋ + 1 times, computes the same
value); and the full overlap integral is the product of the three axis
components, the factor (pi/gamma)^(3/2) and the pair prefactor. -/
theorem overlap_component_closed_form (l1 l2 : ℤ) (hl1 : 0 ≤ l1) (hl1u : l1 ≤ 3)
    (hl2 : 0 ≤ l2) (hl2u : l2 ≤ 3) (PAx PBx gamma : ℝ) :
    OEI.overlap_component l1 l2 PAx PBx gamma =
      ∑ i ∈ Finset.range (((l1 + l2).toNat + 1) / 2 + 1),
        OEI.binomial_prefactor (2 * i) l1 l2 PAx PBx * OEI.dfac (2 * i - 1) /
          (2 * gamma) ^ i
    ∧ ∀ (aa bb prefactor : ℝ) (La Lb : ℤ × ℤ × ℤ) (PA PB : Fin 3 → ℝ),
        OEI.overlap aa La bb Lb PA PB prefactor =
          prefactor * (Real.pi / (aa + bb)) ^ ((3 : ℝ) / 2) *
            (OEI.overlap_component La.1 Lb.1 (PA 0) (PB 0) (aa + bb) *
              OEI.overlap_component La.2.1 Lb.2.1 (PA 1) (PB 1) (aa + bb) *
              OEI.overlap_component La.2.2 Lb.2.2 (PA 2) (PB 2) (aa + bb)) := by
  constructor
  · unfold OEI.overlap_component
    rw [Int.fdiv_eq_ediv _ (by norm_num)]
    rcases Nat.even_or_odd (l1 + l2).toNat with he | ho
    · obtain ⟨k, hk⟩ := he
      have hrange : (1 + (l1 + l2) / 2).toNat = ((l1 + l2).toNat + 1) / 2 + 1 := by
        omega
      rw [hrange]
    · obtain ⟨k, hk⟩ := ho
      have hrange : ((l1 + l2).toNat + 1) / 2 + 1 = (1 + (l1 + l2) / 2).toNat + 1 := by
        omega
      rw [hrange, Finset.sum_range_succ,
        binomial_prefactor_eq_zero (i := 2 * ((1 + (l1 + l2) / 2).toNat : ℤ)) (by omega)]
      simp
  · intro aa bb prefactor La Lb PA PB
    rw [show ((3 : ℝ) / 2) = (1.5 : ℝ) by norm_num]
    unfold OEI.overlap
    ring

theorem overlap_component_closed_form_witness :
    ((0:ℤ) ≤ 1 ∧ (1:ℤ) ≤ 3 ∧ (0:ℤ) ≤ 2 ∧ (2:ℤ) ≤ 3) ∧
    (OEI.overlap_component 1 2 0 1 1 =
        ∑ i ∈ Finset.range ((((1:ℤ) + 2).toNat + 1) / 2 + 1),
          OEI.binomial_prefactor (2 * i) 1 2 0 1 * OEI.dfac (2 * i - 1) / (2 * 1) ^ i
      ∧ ∀ (aa bb prefactor : ℝ) (La Lb : ℤ × ℤ × ℤ) (PA PB : Fin 3 → ℝ),
          OEI.overlap aa La bb Lb PA PB prefactor =
            prefactor * (Real.pi / (aa + bb)) ^ ((3 : ℝ) / 2) *
              (OEI.overlap_component La.1 Lb.1 (PA 0) (PB 0) (aa + bb) *
                OEI.overlap_component La.2.1 Lb.2.1 (PA 1) (PB 1) (aa + bb) *
                OEI.overlap_component La.2.2 Lb.2.2 (PA 2) (PB 2) (aa + bb))) :=
  ⟨⟨by norm_num, by norm_num, by norm_num, by norm_num⟩,
    overlap_component_closed_form 1 2 (by norm_num) (by norm_num) (by norm_num)
      (by norm_num) 0 1 1⟩

/-- C4: the kinetic integral is the Taketa kinetic-from-overlap combination:
bb (2(lb+mb+nb)+3) times the unshifted overlap, minus 2 bb^2 times the sum
of the three overlaps with the ket momentum raised by two along one axis,
minus one half the sum over axes of q(q-1) times the overlap with the ket
momentum lowered by two along that axis; each lowered term vanishes when the
ket momentum on that axis is below two because the factor q(q-1) is zero. -/
theorem kinetic_from_shifted_overlaps (aa bb prefactor : ℝ)
    (la ma na lb mb nb : ℤ) (PA PB : Fin 3 → ℝ)
    (hlb : 0 ≤ lb) (hmb : 0 ≤ mb) (hnb : 0 ≤ nb) :
    OEI.kinetic aa (la, ma, na) bb (lb, mb, nb) PA PB prefactor =
      bb * (2 * ((lb : ℝ) + mb + nb) + 3) *
          OEI.overlap aa (la, ma, na) bb (lb, mb, nb) PA PB prefactor
        - 2 * bb ^ 2 *
            (OEI.overlap aa (la, ma, na) bb (lb + 2, mb, nb) PA PB prefactor
              + OEI.overlap aa (la, ma, na) bb (lb, mb + 2, nb) PA PB prefactor
              + OEI.overlap aa (la, ma, na) bb (lb, mb, nb + 2) PA PB prefactor)
        - 1 / 2 *
            ((lb : ℝ) * ((lb : ℝ) - 1) *
                OEI.overlap aa (la, ma, na) bb (lb - 2, mb, nb) PA PB prefactor
              + (mb : ℝ) * ((mb : ℝ) - 1) *
                  OEI.overlap aa (la, ma, na) bb (lb, mb - 2, nb) PA PB prefactor
              + (nb : ℝ) * ((nb : ℝ) - 1) *
                  OEI.overlap aa (la, ma, na) bb (lb, mb, nb - 2) PA PB prefactor)
    ∧ (lb < 2 → (lb : ℝ) * ((lb : ℝ) - 1) *
        OEI.overlap aa (la, ma, na) bb (lb - 2, mb, nb) PA PB prefactor = 0)
    ∧ (mb < 2 → (mb : ℝ) * ((mb : ℝ) - 1) *
        OEI.overlap aa (la, ma, na) bb (lb, mb - 2, nb) PA PB prefactor = 0)
    ∧ (nb < 2 → (nb : ℝ) * ((nb : ℝ) - 1) *
        OEI.overlap aa (la, ma, na) bb (lb, mb, nb - 2) PA PB prefactor = 0) := by
  refine ⟨rfl, fun h => ?_, fun h => ?_, fun h => ?_⟩
  · have : lb = 0 ∨ lb = 1 := by omega
    rcases this with rfl | rfl <;> norm_num
  · have : mb = 0 ∨ mb = 1 := by omega
    rcases this with rfl | rfl <;> norm_num
  · have : nb = 0 ∨ nb = 1 := by omega
    rcases this with rfl | rfl <;> norm_num

theorem kinetic_from_shifted_overlaps_witness :
    ((0:ℤ) ≤ 1 ∧ (0:ℤ) ≤ 0 ∧ (0:ℤ) ≤ 0) ∧
    (OEI.kinetic 1 (0, 0, 0) 1 (1, 0, 0) (fun _ => 0) (fun _ => 0) 1 =
        1 * (2 * (((1:ℤ) : ℝ) + (0:ℤ) + (0:ℤ)) + 3) *
            OEI.overlap 1 (0, 0, 0) 1 (1, 0, 0) (fun _ => 0) (fun _ => 0) 1
          - 2 * (1:ℝ) ^ 2 *
              (OEI.overlap 1 (0, 0, 0) 1 (1 + 2, 0, 0) (fun _ => 0) (fun _ => 0) 1
                + OEI.overlap 1 (0, 0, 0) 1 (1, 0 + 2, 0) (fun _ => 0) (fun _ => 0) 1
                + OEI.overlap 1 (0, 0, 0) 1 (1, 0, 0 + 2) (fun _ => 0) (fun _ => 0) 1)
          - 1 / 2 *
              (((1:ℤ) : ℝ) * (((1:ℤ) : ℝ) - 1) *
                  OEI.overlap 1 (0, 0, 0) 1 (1 - 2, 0, 0) (fun _ => 0) (fun _ => 0) 1
                + ((0:ℤ) : ℝ) * (((0:ℤ) : ℝ) - 1) *
                    OEI.overlap 1 (0, 0, 0) 1 (1, 0 - 2, 0) (fun _ => 0) (fun _ => 0) 1
                + ((0:ℤ) : ℝ) * (((0:ℤ) : ℝ) - 1) *
                    OEI.overlap 1 (0, 0, 0) 1 (1, 0, 0 - 2) (fun _ => 0) (fun _ => 0) 1)
      ∧ ((1:ℤ) < 2 → ((1:ℤ) : ℝ) * (((1:ℤ) : ℝ) - 1) *
          OEI.overlap 1 (0, 0, 0) 1 (1 - 2, 0, 0) (fun _ => 0) (fun _ => 0) 1 = 0)
      ∧ ((0:ℤ) < 2 → ((0:ℤ) : ℝ) * (((0:ℤ) : ℝ) - 1) *
          OEI.overlap 1 (0, 0, 0) 1 (1, 0 - 2, 0) (fun _ => 0) (fun _ => 0) 1 = 0)
      ∧ ((0:ℤ) < 2 → ((0:ℤ) : ℝ) * (((0:ℤ) : ℝ) - 1) *
          OEI.overlap 1 (0, 0, 0) 1 (1, 0, 0 - 2) (fun _ => 0) (fun _ => 0) 1 = 0)) :=
  ⟨⟨by norm_num, by norm_num, by norm_num⟩,
    kinetic_from_shifted_overlaps 1 1 1 0 0 0 1 0 0 (fun _ => 0) (fun _ => 0)
      (by norm_num) (by norm_num) (by norm_num)⟩

/-- C3: for positive exponents and all-s momenta the naive two electron
repulsion integral is the product of the two Gaussian pair prefactors, the
four normalization constants, the factor 2 pi^(5/2) divided by
(aa+bb)(cc+dd) sqrt(aa+bb+cc+dd), and the order-0 Boys function at
|P - Q|^2 / (4 delta) with delta = 1/(4(aa+bb)) + 1/(4(cc+dd)). -/
theorem eri_closed_form (aa bb cc dd : ℝ) (ha : 0 < aa) (hb : 0 < bb)
    (hc : 0 < cc) (hd : 0 < dd) (A B C D : Fin 3 → ℝ) :
    Torch.eri aa bb cc dd A B C D =
      Real.exp (dot3 (A - B) (A - B) * (-aa * bb / (aa + bb))) *
        Real.exp (dot3 (C - D) (C - D) * (-cc * dd / (cc + dd))) *
        (Torch.normalize aa * Torch.normalize bb * Torch.normalize cc * Torch.normalize dd) *
        (2 * Real.pi ^ 2 * Real.sqrt Real.pi /
          ((aa + bb) * (cc + dd) * Real.sqrt (aa + bb + cc + dd))) *
        Torch.torchboys 0
          (dot3
              ((fun m => (aa * A m + bb * B m) / (aa + bb)) -
                fun m => (cc * C m + dd * D m) / (cc + dd))
              ((fun m => (aa * A m + bb * B m) / (aa + bb)) -
                fun m => (cc * C m + dd * D m) / (cc + dd)) /
            (4 * (1 / (4 * (aa + bb)) + 1 / (4 * (cc + dd))))) := by
  simp only [Torch.eri]
  rw [Real.sqrt_div Real.pi_pos.le]
  generalize Torch.torchboys 0 _ = F
  have h1 : aa + bb ≠ 0 := by positivity
  have h2 : cc + dd ≠ 0 := by positivity
  have hs : Real.sqrt (aa + bb + cc + dd) ≠ 0 := by positivity
  field_simp
  ring

theorem eri_closed_form_witness :
    ((0:ℝ) < 1 ∧ (0:ℝ) < 1 ∧ (0:ℝ) < 1 ∧ (0:ℝ) < 1) ∧
    Torch.eri 1 1 1 1 (fun _ => 0) (fun _ => 0) (fun _ => 0) (fun _ => 0) =
      Real.exp (dot3 ((fun _ => 0) - fun _ => (0:ℝ)) ((fun _ => 0) - fun _ => 0) *
          (-1 * 1 / (1 + 1))) *
        Real.exp (dot3 ((fun _ => 0) - fun _ => (0:ℝ)) ((fun _ => 0) - fun _ => 0) *
          (-1 * 1 / (1 + 1))) *
        (Torch.normalize 1 * Torch.normalize 1 * Torch.normalize 1 * Torch.normalize 1) *
        (2 * Real.pi ^ 2 * Real.sqrt Real.pi /
          ((1 + 1) * (1 + 1) * Real.sqrt (1 + 1 + 1 + 1))) *
        Torch.torchboys 0
          (dot3
              ((fun m => (1 * (fun _ => (0:ℝ)) m + 1 * (fun _ => (0:ℝ)) m) / (1 + 1)) -
                fun m => (1 * (fun _ => (0:ℝ)) m + 1 * (fun _ => (0:ℝ)) m) / (1 + 1))
              ((fun m => (1 * (fun _ => (0:ℝ)) m + 1 * (fun _ => (0:ℝ)) m) / (1 + 1)) -
                fun m => (1 * (fun _ => (0:ℝ)) m + 1 * (fun _ => (0:ℝ)) m) / (1 + 1)) /
            (4 * (1 / (4 * (1 + 1)) + 1 / (4 * (1 + 1))))) :=
  ⟨⟨by norm_num, by norm_num, by norm_num, by norm_num⟩,
    eri_closed_form 1 1 1 1 (by norm_num) (by norm_num) (by norm_num) (by norm_num)
      (fun _ => 0) (fun _ => 0) (fun _ => 0) (fun _ => 0)⟩

lemma AmBAmB_comm (geom : ℕ → Fin 3 → ℝ) (i j : ℕ) :
    Fast.AmBAmB geom i j = Fast.AmBAmB geom j i := by
  unfold Fast.AmBAmB
  exact dot3_sub_comm _ _

lemma oeiS_symm (geom : ℕ → Fin 3 → ℝ) (basis : ℕ → ℝ) (i j : ℕ) :
    Fast.oeiS geom basis i j = Fast.oeiS geom basis j i := by
  unfold Fast.oeiS
  rw [AmBAmB_comm, add_comm (basis j) (basis i), mul_comm (basis i) (basis j),
    mul_comm (Fast.norm basis i) (Fast.norm basis j)]

lemma oeiT_symm (geom : ℕ → Fin 3 → ℝ) (basis : ℕ → ℝ) (i j : ℕ) :
    Fast.oeiT geom basis i j = Fast.oeiT geom basis j i := by
  unfold Fast.oeiT
  rw [oeiS_symm, AmBAmB_comm, add_comm (basis j) (basis i), mul_comm (basis i) (basis j)]

lemma teiBoysArg_symm (geom : ℕ → Fin 3 → ℝ) (basis : ℕ → ℝ) (i j k l : ℕ) :
    Fast.teiBoysArg geom basis i j k l = Fast.teiBoysArg geom basis k l i j := by
  unfold Fast.teiBoysArg
  rw [dot3_sub_comm, add_comm (1 / (4 * (basis j + basis i)))]

lemma teiG_symm (geom : ℕ → Fin 3 → ℝ) (basis : ℕ → ℝ) (i j k l : ℕ) :
    Fast.teiG geom basis i j k l = Fast.teiG geom basis k l i j := by
  unfold Fast.teiG
  rw [add_comm (basis j + basis i) (basis l + basis k)]
  ring

/-- C8: the overlap and kinetic matrices of the vectorized one electron path
are symmetric, and the two electron tensor of the vectorized path satisfies
the bra-ket exchange symmetry G(i,j,k,l) = G(k,l,i,j). -/
theorem fast_path_symmetries (geom : ℕ → Fin 3 → ℝ) (basis : ℕ → ℝ)
    (npa : ℕ) (cpa : ℕ → ℝ) (i j k l : ℕ) :
    (Fast.oei_setup geom basis npa cpa).1 i j = (Fast.oei_setup geom basis npa cpa).1 j i ∧
      (Fast.oei_setup geom basis npa cpa).2.1 i j = (Fast.oei_setup geom basis npa cpa).2.1 j i ∧
      Fast.tei_finish (Fast.tei_setup geom basis npa).1 (Fast.tei_setup geom basis npa).2 i j k l =
        Fast.tei_finish (Fast.tei_setup geom basis npa).1 (Fast.tei_setup geom basis npa).2 k l i j := by
  refine ⟨oeiS_symm geom basis i j, oeiT_symm geom basis i j, ?_⟩
  show Fast.tei_finish (Fast.teiG geom basis) (Fast.teiBoysArg geom basis) i j k l = _
  unfold Fast.tei_finish
  rw [teiBoysArg_symm, teiG_symm]
  rfl

/-! ## Accumulation lemmas for the assembler -/

lemma assemble_apply (L : List ((ℕ × ℕ) × ℝ)) (q : ℕ × ℕ) :
    OEI.assemble L q = (L.map fun c => if c.1 = q then c.2 else 0).sum := by
  suffices h : ∀ m0 : (ℕ × ℕ) → ℝ,
      (L.foldl (fun m c => fun r => if r = c.1 then m r + c.2 else m r) m0) q =
        m0 q + (L.map fun c => if c.1 = q then c.2 else 0).sum by
    have := h (fun _ => 0)
    unfold OEI.assemble
    rw [this, zero_add]
  induction L with
  | nil => intro m0; simp
  | cons c L ih =>
    intro m0
    simp only [List.foldl_cons, List.map_cons, List.sum_cons]
    rw [ih]
    by_cases hq : q = c.1
    · rw [if_pos hq, if_pos hq.symm]
      ring
    · rw [if_neg hq, if_neg fun hh => hq hh.symm]
      ring

lemma sum_map_range {M : Type} [AddCommMonoid M] (f : ℕ → M) (n : ℕ) :
    ((List.range n).map f).sum = ∑ x ∈ Finset.range n, f x := by
  induction n with
  | zero => simp
  | succ n ih =>
    rw [List.range_succ, List.map_append, List.sum_append, Finset.sum_range_succ, ih]
    simp

lemma sum_map_flatMap {α β : Type} (L : List α) (g : α → List β) (f : β → ℝ) :
    ((L.flatMap g).map f).sum = (L.map fun a => ((g a).map f).sum).sum := by
  induction L with
  | nil => simp
  | cons a L ih =>
    simp only [List.flatMap_cons, List.map_append, List.sum_append, List.map_cons,
      List.sum_cons, ih]

lemma sum_flatMap {α : Type} (L : List α) (g : α → List ℝ) :
    (L.flatMap g).sum = (L.map fun a => (g a).sum).sum := by
  induction L with
  | nil => simp
  | cons a L ih => simp [List.flatMap_cons, List.sum_append, ih]

lemma duets_length (n : ℕ) : (OEI.duets n).length = n ^ 2 := by
  unfold OEI.duets
  rw [List.length_flatMap, sum_map_range]
  simp [pow_two]

/-- Entry (i, j) of one assembled component: pick one of the three values of
each contribution with sel, assemble, and read the entry; the result is the
nested sum over primitive duets and intra-shell components of the selected
value, restricted to the contributions targeting (i, j). -/
lemma oei_component_sum (geom : ℕ → Fin 3 → ℝ) (natoms : ℕ) (charges : ℕ → ℝ)
    (B : OEI.BasisData) (i j : ℕ) (sel : ℝ × ℝ × ℝ → ℝ) :
    OEI.assemble ((OEI.oeiContribs geom natoms charges B).map fun c => (c.1, sel c.2)) (i, j) =
      ∑ p1 ∈ Finset.range B.nprim, ∑ p2 ∈ Finset.range B.nprim,
        ∑ a ∈ Finset.range (B.dims p1), ∑ b ∈ Finset.range (B.dims p2),
          if B.indices p1 + a = i ∧ B.indices p2 + b = j then
            sel (OEI.oeiEntry geom natoms charges B p1 p2 a b).2 else 0 := by
  rw [assemble_apply]
  unfold OEI.oeiContribs OEI.duets
  simp only [List.map_flatMap, List.map_map, sum_flatMap, sum_map_flatMap,
    List.map_map, sum_map_range, Function.comp]
  refine Finset.sum_congr rfl fun p1 _ => Finset.sum_congr rfl fun p2 _ =>
    Finset.sum_congr rfl fun a _ => Finset.sum_congr rfl fun b _ => ?_
  have hidx : (OEI.oeiEntry geom natoms charges B p1 p2 a b).1 =
      (B.indices p1 + a, B.indices p2 + b) := rfl
  simp only [hidx, Prod.mk.injEq]

/-- C1: the assembler iterates over all nprim squared ordered primitive
duets (the full non-triangular loop), and every entry (i, j) of each of the
returned S, T and V matrices is exactly the sum, over all duets and
intra-shell component pairs whose shell offset plus component index maps to
(i, j), of the corresponding weighted primitive integral — no contribution
omitted and none duplicated; the final conjunct unfolds each contribution as
the product of the two contraction coefficients with the single primitive
overlap, kinetic and potential values of that duet. -/
theorem oei_arrays_accumulation (geom : ℕ → Fin 3 → ℝ) (natoms : ℕ)
    (charges : ℕ → ℝ) (B : OEI.BasisData) (i j : ℕ) :
    (OEI.duets B.nprim).length = B.nprim ^ 2
    ∧ ((OEI.oei_arrays geom natoms charges B).1 (i, j) =
        ∑ p1 ∈ Finset.range B.nprim, ∑ p2 ∈ Finset.range B.nprim,
          ∑ a ∈ Finset.range (B.dims p1), ∑ b ∈ Finset.range (B.dims p2),
            if B.indices p1 + a = i ∧ B.indices p2 + b = j then
              (OEI.oeiEntry geom natoms charges B p1 p2 a b).2.1 else 0)
    ∧ ((OEI.oei_arrays geom natoms charges B).2.1 (i, j) =
        ∑ p1 ∈ Finset.range B.nprim, ∑ p2 ∈ Finset.range B.nprim,
          ∑ a ∈ Finset.range (B.dims p1), ∑ b ∈ Finset.range (B.dims p2),
            if B.indices p1 + a = i ∧ B.indices p2 + b = j then
              (OEI.oeiEntry geom natoms charges B p1 p2 a b).2.2.1 else 0)
    ∧ ((OEI.oei_arrays geom natoms charges B).2.2 (i, j) =
        ∑ p1 ∈ Finset.range B.nprim, ∑ p2 ∈ Finset.range B.nprim,
          ∑ a ∈ Finset.range (B.dims p1), ∑ b ∈ Finset.range (B.dims p2),
            if B.indices p1 + a = i ∧ B.indices p2 + b = j then
              (OEI.oeiEntry geom natoms charges B p1 p2 a b).2.2.2 else 0)
    ∧ ∀ p1 p2 a b,
        OEI.oeiEntry geom natoms charges B p1 p2 a b =
          ((B.indices p1 + a, B.indices p2 + b),
            (B.coeffs p1 * B.coeffs p2 *
              OEI.overlap (B.exps p1)
                (OEI.angular_momentum_combinations (a + OEI.am_leading_indices (B.ams p1)))
                (B.exps p2)
                (OEI.angular_momentum_combinations (b + OEI.am_leading_indices (B.ams p2)))
                (fun m => (B.exps p1 * geom (B.atoms p1) m + B.exps p2 * geom (B.atoms p2) m) /
                    (B.exps p1 + B.exps p2) - geom (B.atoms p1) m)
                (fun m => (B.exps p1 * geom (B.atoms p1) m + B.exps p2 * geom (B.atoms p2) m) /
                    (B.exps p1 + B.exps p2) - geom (B.atoms p2) m)
                (Real.exp (-B.exps p1 * B.exps p2 *
                  dot3 (geom (B.atoms p1) - geom (B.atoms p2))
                    (geom (B.atoms p1) - geom (B.atoms p2)) / (B.exps p1 + B.exps p2))),
              B.coeffs p1 * B.coeffs p2 *
                OEI.kinetic (B.exps p1)
                  (OEI.angular_momentum_combinations (a + OEI.am_leading_indices (B.ams p1)))
                  (B.exps p2)
                  (OEI.angular_momentum_combinations (b + OEI.am_leading_indices (B.ams p2)))
                  (fun m => (B.exps p1 * geom (B.atoms p1) m + B.exps p2 * geom (B.atoms p2) m) /
                      (B.exps p1 + B.exps p2) - geom (B.atoms p1) m)
                  (fun m => (B.exps p1 * geom (B.atoms p1) m + B.exps p2 * geom (B.atoms p2) m) /
                      (B.exps p1 + B.exps p2) - geom (B.atoms p2) m)
                  (Real.exp (-B.exps p1 * B.exps p2 *
                    dot3 (geom (B.atoms p1) - geom (B.atoms p2))
                      (geom (B.atoms p1) - geom (B.atoms p2)) / (B.exps p1 + B.exps p2))),
              B.coeffs p1 * B.coeffs p2 *
                OEI.potential (B.exps p1)
                  (OEI.angular_momentum_combinations (a + OEI.am_leading_indices (B.ams p1)))
                  (B.exps p2)
                  (OEI.angular_momentum_combinations (b + OEI.am_leading_indices (B.ams p2)))
                  (fun m => (B.exps p1 * geom (B.atoms p1) m + B.exps p2 * geom (B.atoms p2) m) /
                      (B.exps p1 + B.exps p2) - geom (B.atoms p1) m)
                  (fun m => (B.exps p1 * geom (B.atoms p1) m + B.exps p2 * geom (B.atoms p2) m) /
                      (B.exps p1 + B.exps p2) - geom (B.atoms p2) m)
                  (fun m => (B.exps p1 * geom (B.atoms p1) m + B.exps p2 * geom (B.atoms p2) m) /
                      (B.exps p1 + B.exps p2))
                  (Real.exp (-B.exps p1 * B.exps p2 *
                    dot3 (geom (B.atoms p1) - geom (B.atoms p2))
                      (geom (B.atoms p1) - geom (B.atoms p2)) / (B.exps p1 + B.exps p2)))
                  geom natoms charges)) := by
  refine ⟨duets_length B.nprim,
    oei_component_sum geom natoms charges B i j (fun v => v.1),
    oei_component_sum geom natoms charges B i j (fun v => v.2.1),
    oei_component_sum geom natoms charges B i j (fun v => v.2.2),
    fun p1 p2 a b => ?_⟩
  unfold OEI.oeiEntry
  refine Prod.ext rfl (Prod.ext ?_ (Prod.ext ?_ ?_)) <;> dsimp only <;> ring

/-! ## Relating the vectorized two electron path to the naive eri kernel -/

lemma teiRp_eq (geom : ℕ → Fin 3 → ℝ) (basis : ℕ → ℝ) (i j : ℕ) :
    Fast.teiRp geom basis i j =
      fun m => (basis i * Fast.centers geom i m + basis j * Fast.centers geom j m) /
        (basis i + basis j) := by
  funext m
  unfold Fast.teiRp
  ring

lemma teiC1_eq (geom : ℕ → Fin 3 → ℝ) (basis : ℕ → ℝ) (i j : ℕ) :
    Real.exp (dot3 (Fast.centers geom i - Fast.centers geom j)
        (Fast.centers geom i - Fast.centers geom j) *
      (-basis i * basis j / (basis i + basis j))) = Fast.teiC1 geom basis i j := by
  unfold Fast.teiC1
  rw [dot3_sub_comm]
  congr 1
  ring

/-- Factorization of the naive eri kernel at the array entries of the
vectorized path: eri on the exponents and centers of basis functions
(i, j, k, l) is exactly the torch Boys factor times the tei_setup prefactor
entry, both at the tei_setup Boys argument entry. -/
lemma eri_teiG_split (geom : ℕ → Fin 3 → ℝ) (basis : ℕ → ℝ) (i j k l : ℕ) :
    Torch.eri (basis i) (basis j) (basis k) (basis l)
        (Fast.centers geom i) (Fast.centers geom j)
        (Fast.centers geom k) (Fast.centers geom l) =
      Torch.torchboys 0 (Fast.teiBoysArg geom basis i j k l) *
        Fast.teiG geom basis i j k l := by
  have harg :
      dot3
          ((fun m => (basis i * Fast.centers geom i m + basis j * Fast.centers geom j m) /
              (basis i + basis j)) -
            fun m => (basis k * Fast.centers geom k m + basis l * Fast.centers geom l m) /
              (basis k + basis l))
          ((fun m => (basis i * Fast.centers geom i m + basis j * Fast.centers geom j m) /
              (basis i + basis j)) -
            fun m => (basis k * Fast.centers geom k m + basis l * Fast.centers geom l m) /
              (basis k + basis l)) /
        (4 * (1 / (4 * (basis i + basis j)) + 1 / (4 * (basis k + basis l)))) =
      Fast.teiBoysArg geom basis i j k l := by
    unfold Fast.teiBoysArg
    rw [teiRp_eq, teiRp_eq, add_comm (basis j) (basis i), add_comm (basis l) (basis k)]
  simp only [Torch.eri]
  rw [harg]
  unfold Fast.teiG
  rw [← teiC1_eq geom basis i j, ← teiC1_eq geom basis k l]
  rw [add_comm (basis j) (basis i), add_comm (basis l) (basis k)]
  generalize Torch.torchboys 0 (Fast.teiBoysArg geom basis i j k l) = F
  unfold Fast.norm Torch.normalize
  ring

/-- Equality of the two F0 branch selections away from the threshold: the
mask of tei_finish selects the series for arguments up to 1e-8 while the
torch kernel selects it strictly below 1e-8, and both branch values agree
whenever the argument is not exactly 1e-8. -/
lemma finishF_eq_torchboys (x : ℝ) (h : x ≠ 1e-8) :
    Fast.finishF x = Torch.torchboys 0 x := by
  unfold Fast.finishF Torch.torchboys
  rcases lt_trichotomy x 1e-8 with hlt | heq | hgt
  · rw [if_pos hlt.le, if_pos hlt]
    norm_num
  · exact absurd heq h
  · rw [if_neg (not_le.mpr hgt), if_neg (not_lt.mpr hgt.le)]

/-- C9 (amended): for every all-s basis, every element (i, j, k, l) of the
two electron tensor of the vectorized fast path (tei_setup then tei_finish)
equals the naive single quartet kernel eri on the corresponding exponents
and centers, provided the Boys argument of the entry is not exactly the
branch threshold 1e-8 (where the two implementations select different
branches). -/
theorem tei_path_refines_eri (geom : ℕ → Fin 3 → ℝ) (basis : ℕ → ℝ)
    (npa i j k l : ℕ) (h : Fast.teiBoysArg geom basis i j k l ≠ 1e-8) :
    Fast.teiPath geom basis npa i j k l =
      Torch.eri (basis i) (basis j) (basis k) (basis l)
        (Fast.centers geom i) (Fast.centers geom j)
        (Fast.centers geom k) (Fast.centers geom l) := by
  rw [eri_teiG_split]
  show Fast.tei_finish (Fast.teiG geom basis) (Fast.teiBoysArg geom basis) i j k l = _
  unfold Fast.tei_finish
  rw [finishF_eq_torchboys _ h]

/-- Concrete all-zero geometry used by the refinement witness. -/
noncomputable def geomZero : ℕ → Fin 3 → ℝ := fun _ => fun _ => 0

/-- Concrete all-one exponent vector used as an all-s basis. -/
noncomputable def basisOne : ℕ → ℝ := fun _ => 1

lemma teiBoysArg_geomZero : Fast.teiBoysArg geomZero basisOne 0 0 0 0 = 0 := by
  simp [Fast.teiBoysArg, Fast.teiRp, Fast.centers, geomZero, basisOne, dot3]

theorem tei_path_refines_eri_witness :
    Fast.teiBoysArg geomZero basisOne 0 0 0 0 ≠ 1e-8 ∧
      Fast.teiPath geomZero basisOne 0 0 0 0 0 =
        Torch.eri (basisOne 0) (basisOne 0) (basisOne 0) (basisOne 0)
          (Fast.centers geomZero 0) (Fast.centers geomZero 0)
          (Fast.centers geomZero 0) (Fast.centers geomZero 0) :=
  ⟨by rw [teiBoysArg_geomZero]; norm_num,
    tei_path_refines_eri geomZero basisOne 0 0 0 0 0
      (by rw [teiBoysArg_geomZero]; norm_num)⟩

/-- Exact value of ∫ s in 0..t of 1 - s^2. -/
lemma integral_one_sub_sq (t : ℝ) : (∫ s in (0:ℝ)..t, (1 - s ^ 2)) = t - t ^ 3 / 3 := by
  rw [intervalIntegral.integral_sub intervalIntegrable_const
      ((continuous_pow 2).intervalIntegrable 0 t),
    intervalIntegral.integral_const, integral_pow]
  norm_num

/-- Strict lower Taylor bound for the error function at positive arguments:
exp(-s^2) strictly exceeds 1 - s^2 away from 0, so the integral comparison
is strict. -/
lemma erf_gt_taylor (t : ℝ) (ht : 0 < t) :
    2 / Real.sqrt Real.pi * (t - t ^ 3 / 3) < erf t := by
  have hkey : (∫ s in (0:ℝ)..t, (1 - s ^ 2)) < ∫ s in (0:ℝ)..t, Real.exp (-s ^ 2) := by
    apply intervalIntegral.integral_lt_integral_of_continuousOn_of_le_of_exists_lt ht
    · exact (continuous_const.sub (continuous_pow 2)).continuousOn
    · exact (Real.continuous_exp.comp (continuous_pow 2).neg).continuousOn
    · intro x hx
      have h := Real.add_one_le_exp (-x ^ 2)
      linarith
    · refine ⟨t, Set.mem_Icc.mpr ⟨ht.le, le_refl t⟩, ?_⟩
      have h := Real.add_one_lt_exp (x := -t ^ 2) (by nlinarith)
      linarith
  rw [integral_one_sub_sq] at hkey
  unfold erf
  have h2 : (0:ℝ) < 2 / Real.sqrt Real.pi := by positivity
  exact (mul_lt_mul_left h2).mpr hkey

/-- Concrete geometry placing atom 0 at (1e-4, 0, 0) and every other atom at
the origin, which puts the Boys argument of entry (0, 0, 20, 20) exactly at
the branch threshold. -/
noncomputable def cexGeom : ℕ → Fin 3 → ℝ :=
  fun a => fun m => if a = 0 ∧ m = 0 then 1e-4 else 0

lemma teiBoysArg_cexGeom : Fast.teiBoysArg cexGeom basisOne 0 0 20 20 = 1e-8 := by
  simp [Fast.teiBoysArg, Fast.teiRp, Fast.centers, cexGeom, basisOne, dot3,
    Fin.sum_univ_three]
  norm_num

/-- C9 counterexample: at the concrete all-s configuration cexGeom and unit
exponents the Boys argument of entry (0, 0, 20, 20) is exactly the threshold
1e-8; there tei_finish takes the series branch while the naive eri kernel
takes the error function branch, and the two values differ, so the
vectorized path does not equal eri on every input. -/
theorem tei_path_ne_eri_at_threshold :
    Fast.teiPath cexGeom basisOne 0 0 0 20 20 ≠
      Torch.eri (basisOne 0) (basisOne 0) (basisOne 20) (basisOne 20)
        (Fast.centers cexGeom 0) (Fast.centers cexGeom 0)
        (Fast.centers cexGeom 20) (Fast.centers cexGeom 20) := by
  rw [eri_teiG_split]
  show Fast.tei_finish (Fast.teiG cexGeom basisOne) (Fast.teiBoysArg cexGeom basisOne) 0 0 20 20 ≠ _
  unfold Fast.tei_finish
  rw [teiBoysArg_cexGeom]
  have hG : 0 < Fast.teiG cexGeom basisOne 0 0 20 20 := by
    unfold Fast.teiG Fast.teiC1 Fast.norm
    simp only [basisOne]
    positivity
  apply ne_of_lt
  apply mul_lt_mul_of_pos_right _ hG
  have hFs : Fast.finishF 1e-8 = 1 - 1e-8 / 3 := by
    unfold Fast.finishF
    rw [if_pos le_rfl]
  have hsq : Real.sqrt 1e-8 = 1e-4 := by
    rw [show (1e-8 : ℝ) = (1e-4) ^ 2 by norm_num, Real.sqrt_sq (by norm_num)]
  have hFe : Torch.torchboys 0 1e-8 = erf 1e-4 * Real.sqrt Real.pi / (2 * 1e-4) := by
    unfold Torch.torchboys
    rw [if_neg (by norm_num), hsq]
  rw [hFs, hFe]
  have hπ : (0:ℝ) < Real.sqrt Real.pi := Real.sqrt_pos.mpr Real.pi_pos
  have hlt := erf_gt_taylor 1e-4 (by norm_num)
  have hmul := mul_lt_mul_of_pos_right hlt
    (show (0:ℝ) < Real.sqrt Real.pi / (2 * 1e-4) by positivity)
  have hval : 2 / Real.sqrt Real.pi * ((1e-4:ℝ) - (1e-4) ^ 3 / 3) *
      (Real.sqrt Real.pi / (2 * 1e-4)) = 1 - 1e-8 / 3 := by
    have hπ2 : Real.sqrt Real.pi ≠ 0 := by positivity
    field_simp
    ring_nf
  rw [hval] at hmul
  calc (1:ℝ) - 1e-8 / 3 < erf 1e-4 * (Real.sqrt Real.pi / (2 * 1e-4)) := hmul
    _ = erf 1e-4 * Real.sqrt Real.pi / (2 * 1e-4) := by ring

/-- C10: the outputs of oei_setup and tei_setup do not depend on the
nbf_per_atom argument — the source never reads it, replicating each atomic
center a hard coded 20 times instead, so basis function i is assigned the
center of atom i / 20. -/
theorem setup_ignores_nbf_per_atom (geom : ℕ → Fin 3 → ℝ) (basis : ℕ → ℝ)
    (cpa : ℕ → ℝ) (n1 n2 : ℕ) :
    Fast.oei_setup geom basis n1 cpa = Fast.oei_setup geom basis n2 cpa ∧
      Fast.tei_setup geom basis n1 = Fast.tei_setup geom basis n2 ∧
      ∀ i, Fast.centers geom i = geom (i / 20) :=
  ⟨rfl, rfl, fun _ => rfl⟩

end Quax
